import Mathlib

/-!
Verification development for `scripts/performance/extension-impact.js`, the
extension-impact benchmark orchestration script.

The script is shallowly embedded: JavaScript strings are modelled as
`List Char` (all data handled by the script is ASCII, so the distinction
between UTF-16 code units, bytes of a `Buffer` and characters is immaterial),
the filesystem as a finite map from the three manifest paths to optional file
contents, and Node's module (`require`) cache as an explicit piece of state.
Each definition is translated directly from the corresponding source
function and keeps its name.
-/

namespace ExtensionImpact

/-- JavaScript strings, modelled as lists of characters. -/
abbrev Str := List Char

/-- Index of the first occurrence of `pat` in `s` (`String.prototype.indexOf`
restricted to a zero start index), as an option.  An empty pattern matches at
index 0, as in JavaScript. -/
def firstMatch (pat : Str) : Str → Option ℕ
  | [] => if pat = [] then some 0 else none
  | x :: xs =>
    if pat.isPrefixOf (x :: xs) then some 0
    else (firstMatch pat xs).map (· + 1)

/-- Index of the last occurrence of `pat` in `s`
(`String.prototype.lastIndexOf` / `Buffer.prototype.lastIndexOf`), as an
option. -/
def lastMatch (pat : Str) : Str → Option ℕ
  | [] => if pat = [] then some 0 else none
  | x :: xs =>
    match lastMatch pat xs with
    | some i => some (i + 1)
    | none => if pat.isPrefixOf (x :: xs) then some 0 else none

/-- `s.lastIndexOf(pat)`: index of the last occurrence, `-1` when absent. -/
def jsLastIndexOf (s pat : Str) : ℤ :=
  match lastMatch pat s with
  | some i => (i : ℤ)
  | none => -1

/-- `s.indexOf(pat, from)`: index of the first occurrence at or after `from`
(negative start indices are clamped to 0, as in JavaScript), `-1` when
absent. -/
def jsIndexOfFrom (s pat : Str) (start : ℤ) : ℤ :=
  let f := start.toNat
  match firstMatch pat (s.drop f) with
  | some i => (f : ℤ) + i
  | none => -1

/-- `s.substring(a, b)`: both indices are clamped into `[0, s.length]` and
swapped when out of order, exactly as specified for
`String.prototype.substring`. -/
def jsSubstring (s : Str) (a b : ℤ) : Str :=
  let n : ℤ := s.length
  let a1 := min (max a 0) n
  let b1 := min (max b 0) n
  let lo := min a1 b1
  let hi := max a1 b1
  (s.drop lo.toNat).take (hi - lo).toNat

/-- Exact rational numbers with an executable, kernel-reducible
representation.  (The script's numbers are IEEE doubles; they are modelled
as exact rationals.  Mathlib's `Rat` arithmetic is marked irreducible and
so cannot be evaluated inside proofs, hence this explicit pair
representation: `num / den` in lowest terms with `den > 0`, maintained by
the normalizing constructor `Q.mk0`.) -/
structure Q where
  num : ℤ
  den : ℤ
deriving DecidableEq, Repr

/-- Normalizing constructor: `Q.mk0 n d` is `n / d` in lowest terms with a
positive denominator; a zero denominator collapses to `0` (the script never
divides by zero on the measured paths). -/
def Q.mk0 (n d : ℤ) : Q :=
  if d = 0 then ⟨0, 1⟩
  else
    let s : ℤ := if d < 0 then -1 else 1
    let n2 := s * n
    let d2 := s * d
    let g : ℤ := Int.gcd n2 d2
    if g = 0 then ⟨0, 1⟩ else ⟨n2 / g, d2 / g⟩

/-- Embedding of an integer. -/
def Q.ofInt (n : ℤ) : Q := ⟨n, 1⟩

/-- Addition. -/
def Q.add (a b : Q) : Q := Q.mk0 (a.num * b.den + b.num * a.den) (a.den * b.den)

/-- Subtraction (`mean - baseTime`). -/
def Q.sub (a b : Q) : Q := Q.mk0 (a.num * b.den - b.num * a.den) (a.den * b.den)

/-- Multiplication. -/
def Q.mul (a b : Q) : Q := Q.mk0 (a.num * b.num) (a.den * b.den)

/-- Division (`stdev / mean`). -/
def Q.div (a b : Q) : Q := Q.mk0 (a.num * b.den) (a.den * b.num)

/-- Decimal digits `0`-`9`. -/
def isDigitChar (c : Char) : Bool := '0' ≤ c && c ≤ '9'

/-- Numeric value of a digit string (most significant digit first). -/
def natOfDigits (ds : Str) : ℕ :=
  ds.foldl (fun a c => 10 * a + (c.toNat - 48)) 0

/-- Leading optional sign of a numeric literal: returns the sign as `1`
or `-1` together with the rest of the input. -/
def readSign : Str → ℤ × Str
  | '+' :: rest => (1, rest)
  | '-' :: rest => (-1, rest)
  | s => (1, s)

/-- `parseFloat(s)` for finite decimal literals, returning `none` for `NaN`:
leading whitespace is skipped, then an optional sign, a digit run, an
optional fractional part and an optional exponent part are consumed and any
trailing garbage is ignored; if no digit is found the result is `NaN`.
The exact decimal value `sign * (int.frac) * 10^(±exp)` is assembled as a
single fraction.  (The special literal `Infinity`, which the measurement
tool never prints, is not modelled.) -/
def jsParseFloat (s : Str) : Option Q :=
  let s1 := s.dropWhile (fun c => c = ' ' || c = '\t' || c = '\n' || c = '\r')
  let (sgn, s2) := readSign s1
  let intDs := s2.takeWhile isDigitChar
  let s3 := s2.dropWhile isDigitChar
  let fracDs := match s3 with
    | '.' :: rest => rest.takeWhile isDigitChar
    | _ => []
  let s4 := match s3 with
    | '.' :: rest => rest.dropWhile isDigitChar
    | _ => s3
  if intDs = [] ∧ fracDs = [] then none
  else
    let mantNum : ℤ := natOfDigits intDs * 10 ^ fracDs.length + natOfDigits fracDs
    let mantDen : ℤ := 10 ^ fracDs.length
    let (expSgn, expVal) : ℤ × ℕ := match s4 with
      | 'e' :: rest | 'E' :: rest =>
        let (esgn, s5) := readSign rest
        let eDs := s5.takeWhile isDigitChar
        if eDs = [] then (1, 0) else (esgn, natOfDigits eDs)
      | _ => (1, 0)
    if expSgn = 1 then some (Q.mk0 (sgn * mantNum * 10 ^ expVal) mantDen)
    else some (Q.mk0 (sgn * mantNum) (mantDen * 10 ^ expVal))

/-- Left-pad the decimal rendering of `k < 1000` to three digits. -/
def pad3 (k : ℕ) : String :=
  if k < 10 then "00" ++ toString k
  else if k < 100 then "0" ++ toString k
  else toString k

/-- `x.toFixed(3)` on exact rationals: the sign of `x` followed by the
magnitude rounded to the nearest thousandth, ties away from zero (ECMA-262
picks the larger candidate after taking the absolute value of the value
being formatted).  The rounding `⌊|x| * 1000 + 1/2⌋` is computed on the
fraction as `(|num| * 2000 + den) / (2 * den)` in exact integer
division. -/
def toFixed3 (q : Q) : String :=
  let neg := q.num < 0
  let n : ℕ := ((q.num.natAbs * 2000 + q.den.toNat) / (2 * q.den.toNat))
  (if neg then "-" else "") ++ toString (n / 1000) ++ "." ++ pad3 (n % 1000)

/-- `getMeasurement(output, identifier)` from the source: take the character
position one past the end of the **last** occurrence of `identifier` plus
one, and the position of the first following occurrence of the literal
`"seconds"` minus one, and return the substring between them.  When the
identifier is absent `lastIndexOf` yields `-1`, so extraction starts at
offset `identifier.length`; when `"seconds"` is absent the end index is
`-2` and `substring` swaps its clamped arguments. -/
def getMeasurement (output identifier : Str) : Str :=
  let firstIndex : ℤ := jsLastIndexOf output identifier + identifier.length + 1
  let lastIndex : ℤ := jsIndexOfFrom output ("seconds".toList) firstIndex - 1
  jsSubstring output firstIndex lastIndex

/-- The mean marker passed to `getMeasurement`. -/
def meanMarker : Str := "[MEAN] Largest Contentful Paint (LCP):".toList

/-- The standard-deviation marker passed to `getMeasurement`. -/
def stdevMarker : Str := "[STDEV] Largest Contentful Paint (LCP):".toList

/-- An extension qualifier as produced by `getPackagesExtensions`:
`"name" + ': ' + "version"` with both components wrapped in double
quotes. -/
def enumQualifier (name version : Str) : Str :=
  '"' :: name ++ '"' :: ':' :: ' ' :: '"' :: version ++ ['"']

/-- The qualifier parsing performed at the top of `calculateExtension`:
strip every double quote (`replace(/"/g, '')`), then split at the last
colon; `substring(0, i)` is the name and `substring(i + 1)` the version. -/
def parseQualifier (q : Str) : Str × Str :=
  let qualifier := q.filter (fun c => c != '"')
  let i := jsLastIndexOf qualifier [':']
  (jsSubstring qualifier 0 i, jsSubstring qualifier (i + 1) qualifier.length)

/-! ## Report emission (the tail of `calculateExtension`)

`calculateExtension` parses a mean and a standard deviation out of the
captured output, then prints one report row and updates the module-level
`baseTime` variable.  NaN is modelled as `none`. -/

/-- One printed report row, field by field.  On a measurement failure the
mean column holds the literal error text and the remaining columns hold
dashes. -/
structure Row where
  label : String
  mean : String
  stdev : String
  cv : String
  delta : String
deriving DecidableEq, Repr

/-- Rendering of a row as the comma-separated line printed by
`console.log`. -/
def renderRow (r : Row) : String :=
  r.label ++ ", " ++ r.mean ++ ", " ++ r.stdev ++ ", " ++ r.cv ++ ", " ++ r.delta

/-- The row printed when `isNaN(mean) || isNaN(stdev)`. -/
def errorRow (label : String) : Row :=
  { label := label
    mean := "Error while measuring with this extension"
    stdev := "-", cv := "-", delta := "-" }

/-- The reporting tail of `calculateExtension`: given the parsed mean and
standard deviation (`none` = NaN) and the current `baseTime`, produce the
printed row and the new `baseTime`.  On success the coefficient of
variation is `(stdev / mean) * 100` and the delta is `mean - baseTime`,
both formatted with `toFixed(3)`; when `baseTime` is still undefined the
delta column is a dash and the just-measured mean becomes `baseTime`. -/
def reportRow (label : String) (mean stdev : Option Q) (baseTime : Option Q) :
    Row × Option Q :=
  match mean, stdev with
  | some m, some s =>
    let cv := toFixed3 (Q.mul (Q.div s m) (Q.ofInt 100))
    match baseTime with
    | none =>
      ({ label := label, mean := toFixed3 m, stdev := toFixed3 s, cv := cv, delta := "-" },
       some m)
    | some b =>
      ({ label := label, mean := toFixed3 m, stdev := toFixed3 s, cv := cv,
         delta := toFixed3 (Q.sub m b) }, some b)
  | _, _ => (errorRow label, baseTime)

/-- One trial of the sweep, after result parsing: its printed label and its
parsed mean/standard deviation. -/
structure Trial where
  label : String
  mean : Option Q
  stdev : Option Q
deriving DecidableEq, Repr

/-- The trial loop of `extensionImpact`, with measurement outcomes given as
parsed samples: each trial prints one row, threading the module-level
`baseTime` through the sequence. -/
def runTrials : List Trial → Option Q → List Row
  | [], _ => []
  | t :: ts, baseTime =>
    let (r, bt2) := reportRow t.label t.mean t.stdev baseTime
    r :: runTrials ts bt2

/-- The sample `calculateExtension` extracts from a captured output blob:
`parseFloat(getMeasurement(output, marker))` for the mean and stdev
markers. -/
def trialOfBlob (label : String) (blob : Str) : Trial :=
  { label := label
    mean := jsParseFloat (getMeasurement blob meanMarker)
    stdev := jsParseFloat (getMeasurement blob stdevMarker) }

/-- The trial loop with measurement outcomes given as raw captured output
blobs. -/
def runTrialsOnBlobs (bs : List (String × Str)) (baseTime : Option Q) : List Row :=
  runTrials (bs.map fun p => trialOfBlob p.1 p.2) baseTime

/-! ## The manifest, its mutation, and the `require` cache

`calculateExtension` loads the live manifest with `require(...)`, sets
`dependencies[name] = version` on the returned object and writes the result
back with `writeFileSync`.  Node caches `require` results per resolved
path: the first call parses the file, every later call returns the *same
object*, which the script mutates in place.  Only the `dependencies` map of
the manifest is relevant; it is modelled as an association list with
JavaScript object-update semantics (overwrite in place, append new keys at
the end). -/

/-- The `dependencies` map of a manifest. -/
abbrev Manifest := List (Str × Str)

/-- `object[key] = value` on a JavaScript object: overwrite an existing key
in place, append a missing key at the end. -/
def setDep (deps : Manifest) (k v : Str) : Manifest :=
  if deps.any (fun p => p.1 == k) then
    deps.map (fun p => if p.1 == k then (k, v) else p)
  else deps ++ [(k, v)]

/-- Lookup in a `dependencies` map. -/
def getDep (deps : Manifest) (k : Str) : Option Str :=
  (deps.find? (fun p => p.1 == k)).map (fun p => p.2)

/-- Keys at which two manifests disagree. -/
def diffKeys (m base : Manifest) : List Str :=
  ((m.map (fun p => p.1)) ++ (base.map (fun p => p.1))).dedup.filter
    (fun k => getDep m k != getDep base k)

/-- The state relevant to manifest mutation: the content of the live
manifest file and Node's `require` cache for its resolved path. -/
structure ScriptState where
  live : Manifest
  cache : Option Manifest
deriving DecidableEq, Repr

/-- `require('../../examples/browser/package.json')`: on the first call the
file is parsed and the result cached; later calls return the cached object
even if the file has changed on disk. -/
def requireLive (st : ScriptState) : Manifest × ScriptState :=
  match st.cache with
  | some p => (p, st)
  | none => (st.live, { st with cache := some st.live })

/-- The mutation block of `calculateExtension` for a present qualifier:
parse the qualifier, `require` the live manifest, set
`dependencies[name] = version` (this mutates the cached object in place)
and write the result over the live manifest file. -/
def calculateExtensionMutate (st : ScriptState) (q : Str) : ScriptState :=
  let (name, version) := parseQualifier q
  let (pkg, _) := requireLive st
  let pkg2 := setDep pkg name version
  { live := pkg2, cache := some pkg2 }

/-- `copyBasePackage()`: overwrite the live manifest file with the base
manifest contents.  The `require` cache is untouched — Node knows nothing
about the copy. -/
def copyBasePackageOn (base : Manifest) (st : ScriptState) : ScriptState :=
  { st with live := base }

/-- The live-manifest states observed right after each mutation of the
trial loop `for (const e of extensions) { await calculateExtension(e);
copyBasePackage(); }` (the loop resets the file to `base` after each
trial). -/
def statesAfterMutation (base : Manifest) (st : ScriptState) : List Str → List ScriptState
  | [] => []
  | q :: qs =>
    let st1 := calculateExtensionMutate st q
    st1 :: statesAfterMutation base (copyBasePackageOn base st1) qs

/-! ## Workspace preparation and cleanup

`prepareWorkspace` backs the live manifest up and resets it to the base
manifest; `cleanWorkspace` restores the backup over the live manifest and
deletes the backup.  The three manifest-shaped files are the only
filesystem state the script touches (the `noPlugins` directory created by
`mkdirp` carries no data and is omitted).  File contents are abstract
(`α`): backup and restore are content-agnostic copies.  `copyFileSync` and
`unlinkSync` throw on a missing source (modelled with `Except`);
`fs.copyFile` reports errors to a callback that only logs them, leaving the
state unchanged. -/

/-- The three manifest paths of the run:
live `../../examples/browser/package.json`, backup `./backup-package.json`
and base `./base-package.json`. -/
inductive FPath
  | live
  | backup
  | base
deriving DecidableEq, Repr

/-- The filesystem restricted to the three manifest paths; `none` means the
file does not exist. -/
def FS (α : Type) := FPath → Option α

/-- Write (create or overwrite) one file. -/
def setFile {α : Type} (fs : FS α) (p : FPath) (c : α) : FS α :=
  fun q => if q = p then some c else fs q

/-- Delete one file. -/
def removeFile {α : Type} (fs : FS α) (p : FPath) : FS α :=
  fun q => if q = p then none else fs q

/-- `copyBasePackage()` at the filesystem level:
`copyFile('./base-package.json', '../../examples/browser/package.json',
err => { if (err) console.log(err); })` — on error (missing base) the
state is unchanged and the error is only logged. -/
def copyBasePackageFs {α : Type} (fs : FS α) : FS α :=
  match fs FPath.base with
  | some b => setFile fs FPath.live b
  | none => fs

/-- `prepareWorkspace()`: `copyFileSync` the live manifest to the backup
path (throws if the live manifest is missing), then `copyBasePackage()`.
(The `mkdirp('../../noPlugins', ...)` call touches no manifest state.) -/
def prepareWorkspaceE {α : Type} (fs : FS α) : Except String (FS α) :=
  match fs FPath.live with
  | none => Except.error "ENOENT: ../../examples/browser/package.json"
  | some l => Except.ok (copyBasePackageFs (setFile fs FPath.backup l))

/-- `cleanWorkspace()`: `copyFileSync('./backup-package.json',
'../../examples/browser/package.json')` then
`unlinkSync('./backup-package.json')`.  Neither call is guarded: a missing
backup makes `copyFileSync` throw, which the surrounding `async` function
surfaces to the caller as a rejected promise.  Nothing is logged and
nothing is caught. -/
def cleanWorkspaceE {α : Type} (fs : FS α) : Except String (FS α) :=
  match fs FPath.backup with
  | none => Except.error "ENOENT: ./backup-package.json"
  | some b => Except.ok (removeFile (setFile fs FPath.live b) FPath.backup)

/-- The effect of `exitHandler`'s `await cleanWorkspace()` on the
filesystem: on success the backup is restored and deleted; when
`cleanWorkspace` throws, the handler's continuation is skipped and the
filesystem is left as it was. -/
def applyClean {α : Type} (fs : FS α) : FS α :=
  match cleanWorkspaceE fs with
  | Except.ok fs2 => fs2
  | Except.error _ => fs

/-- An effect on the live manifest file during the sweep: `writeFileSync`
of a mutated manifest inside `calculateExtension` (synchronous), or the
*landing* of a `copyBasePackage` reset copy.  The reset is issued through
the asynchronous `fs.copyFile` and is never awaited, so its landing is a
separate event that may be interleaved anywhere after its issuance (the
same non-ordering that the sweep event model below makes explicit). -/
inductive MidStep (α : Type)
  | write (c : α)
  | reset

/-- Effect of one sweep step on the filesystem. -/
def applyMid {α : Type} (fs : FS α) : MidStep α → FS α
  | MidStep.write c => setFile fs FPath.live c
  | MidStep.reset => copyBasePackageFs fs

/-- The filesystem at process exit for a run: `exitHandler` (registered for
both `SIGINT` and `exit`) runs `cleanWorkspace` at the end of every run.
`earlyInterrupt` is a run interrupted before `prepareWorkspace` started;
otherwise the run executes `prepareWorkspace` (whose failure also
terminates the run through the exit handler) followed by `steps` — any
interleaving of the sweep's synchronous manifest writes with the reset
copies that landed in time — and then the exit handler's restore.
Because `fs.copyFile` is not awaited, an issued reset copy need not have
landed when the handler runs: `lateResets` counts the in-flight copies
that land only *after* the restore, between it and process death (after
the main thread has stopped, landing copies are the only remaining
effects; on a run that reaches normal completion `lateResets = 0`, since
a pending `fs.copyFile` callback keeps the event loop alive and the
`exit` event fires only once every copy has finished — only an interrupt
can leave copies in flight past the restore).  A second `cleanWorkspace`
invocation on the `SIGINT`-then-`exit` path finds no backup and leaves
the state unchanged, so one `applyClean` suffices. -/
def finalFS {α : Type} (fs0 : FS α) (steps : List (MidStep α)) (lateResets : ℕ)
    (earlyInterrupt : Bool) : FS α :=
  let land : FS α → FS α := fun fs =>
    (List.replicate lateResets (MidStep.reset : MidStep α)).foldl applyMid fs
  if earlyInterrupt then land (applyClean fs0)
  else
    match prepareWorkspaceE fs0 with
    | Except.error _ => land (applyClean fs0)
    | Except.ok fs1 => land (applyClean (steps.foldl applyMid fs1))

/-! ## Option processing and startup

The command-line options, after yargs parsing.  `args.runs` is yargs's
numeric value; the script's `if (args.runs)` guard is JavaScript
truthiness, i.e. the value is present and nonzero (`parseInt` on an
integral numeric argument is the identity and is modelled as such).  The
module-level `runs` variable starts at 10. -/

structure Args where
  baseTime : Option Q
  runs : Option ℤ
  extensions : Option (List Str)
  yarn : Bool
  url : Option Str
deriving Repr

/-- Whether the `--runs` check rejects the invocation: a truthy (nonzero)
runs value below 2. -/
def rejectsRuns (args : Args) : Bool :=
  match args.runs with
  | some n => n != 0 && decide (n < 2)
  | none => false

/-- The value of the module-level `runs` variable after option processing:
overwritten only by a truthy `--runs` value, otherwise the default 10. -/
def runsAfterOptions (args : Args) : ℤ :=
  match args.runs with
  | some n => if n != 0 then n else 10
  | none => 10

/-- Outcome of the startup phase of the main IIFE. -/
structure MainOut (α : Type) where
  errors : List String
  fs : FS α
  exitCode : ℕ
  proceeded : Bool
  runsUsed : ℤ

/-- The main IIFE up to the start of the sweep: process options in source
order; a truthy `--runs` below 2 prints `--runs must be at least 2` with
`console.error` and `return`s — the async function resolves and the
process later exits normally (exit code 0) having performed no filesystem
effect.  Otherwise `prepareWorkspace()` runs (its uncaught exception would
terminate the process with a nonzero code), the initial build is triggered
(an opaque external process) and the sweep is entered. -/
def mainScript {α : Type} (args : Args) (fs0 : FS α) : MainOut α :=
  if rejectsRuns args then
    { errors := ["--runs must be at least 2"], fs := fs0, exitCode := 0,
      proceeded := false, runsUsed := runsAfterOptions args }
  else
    match prepareWorkspaceE fs0 with
    | Except.error e =>
      { errors := [e], fs := fs0, exitCode := 1, proceeded := false,
        runsUsed := runsAfterOptions args }
    | Except.ok fs1 =>
      { errors := [], fs := fs1, exitCode := 0, proceeded := true,
        runsUsed := runsAfterOptions args }

/-! ## Ordering of sweep events

The trial loop is `for (const e of extensions) { await
calculateExtension(e); copyBasePackage(); }`.  All of
`calculateExtension`'s work (`writeFileSync` of the mutated manifest, the
`execSync` build, the `execSync` measurement run) is synchronous, so those
events occur on the main thread in program order.  `copyBasePackage` calls
the *asynchronous* `fs.copyFile` and does not await it: the loop only
*issues* the reset, and the copy itself is performed by a worker thread
that completes at an unspecified later point (Node's fs API gives no
ordering guarantee relative to subsequent operations).  A trace is any
interleaving that keeps the main-thread events in program order and places
each reset completion after its issue. -/

inductive Ev
  | mutate (i : ℕ)
  | build (i : ℕ)
  | measure (i : ℕ)
  | resetIssue (i : ℕ)
  | resetComplete (i : ℕ)
deriving DecidableEq, Repr

/-- Main-thread events (everything except asynchronous reset
completions). -/
def isMainEv : Ev → Bool
  | Ev.resetComplete _ => false
  | _ => true

/-- The main-thread events of a sweep over `n` extensions, in program
order. -/
def mainSeq : ℕ → List Ev
  | 0 => []
  | n + 1 => mainSeq n ++ [Ev.mutate n, Ev.build n, Ev.measure n, Ev.resetIssue n]

/-- Reset completions mention only trials of this sweep. -/
def completeBound (n : ℕ) : Ev → Bool
  | Ev.resetComplete i => decide (i < n)
  | _ => true

/-- Admissible traces of a sweep over `n` extensions: the main-thread
events appear exactly in program order, and each trial's reset completion
occurs exactly once, after its issue.  Relative order of an earlier and a
later event is expressed as a two-element sublist. -/
def ValidTrace (n : ℕ) (t : List Ev) : Prop :=
  t.filter isMainEv = mainSeq n
  ∧ (∀ i < n, t.count (Ev.resetComplete i) = 1
      ∧ List.Sublist [Ev.resetIssue i, Ev.resetComplete i] t)
  ∧ ∀ e ∈ t, completeBound n e = true

/-- The ordering property claimed for consecutive extensions: the mutation
for extension `i + 1` happens only after the build and measurement for
extension `i` and after the live manifest has been *reset* (the reset
completion, not merely its issuance). -/
def mutationAfterResetCompletes (n : ℕ) (t : List Ev) : Prop :=
  ∀ i, i + 1 < n →
    List.Sublist [Ev.build i, Ev.mutate (i + 1)] t
    ∧ List.Sublist [Ev.measure i, Ev.mutate (i + 1)] t
    ∧ List.Sublist [Ev.resetComplete i, Ev.mutate (i + 1)] t

/-! ## Helper lemmas -/

/-- No sweep step writes the backup file. -/
theorem foldl_applyMid_backup {α : Type} (steps : List (MidStep α)) (fs : FS α) :
    (steps.foldl applyMid fs) FPath.backup = fs FPath.backup := by
  induction steps generalizing fs with
  | nil => rfl
  | cons s ss ih =>
    rw [List.foldl_cons, ih]
    cases s with
    | write c => simp [applyMid, setFile]
    | reset =>
      cases hb : fs FPath.base <;> simp [applyMid, copyBasePackageFs, hb, setFile]

/-- `copyBasePackage` never touches the backup file. -/
theorem copyBasePackageFs_backup {α : Type} (fs : FS α) :
    (copyBasePackageFs fs) FPath.backup = fs FPath.backup := by
  cases hb : fs FPath.base <;> simp [copyBasePackageFs, hb, setFile]

/-- A filesystem with no backup file makes `cleanWorkspace` throw and the
exit handler leave the state unchanged. -/
theorem applyClean_no_backup {α : Type} (fs : FS α) (h : fs FPath.backup = none) :
    applyClean fs = fs := by
  unfold applyClean cleanWorkspaceE
  rw [h]

/-- A single-character pattern does not occur in a list free of that
character. -/
theorem lastMatch_single_of_not_mem (c : Char) (l : Str) (h : c ∉ l) :
    lastMatch [c] l = none := by
  induction l with
  | nil => simp [lastMatch]
  | cons x xs ih =>
    have hx : c ≠ x := fun e => h (e ▸ List.mem_cons_self x xs)
    have hxs : c ∉ xs := fun e => h (List.mem_cons_of_mem x e)
    simp [lastMatch, ih hxs, List.isPrefixOf, hx]

/-- The last occurrence of a character that does not occur in `r` is the
explicit one between `l` and `r`. -/
theorem lastMatch_single_append (c : Char) (l r : Str) (h : c ∉ r) :
    lastMatch [c] (l ++ c :: r) = some l.length := by
  induction l with
  | nil => simp [lastMatch, lastMatch_single_of_not_mem c r h, List.isPrefixOf]
  | cons x l ih => simp [lastMatch, ih]

/-- A list is a prefix of itself followed by anything. -/
theorem isPrefixOf_append_self (l t : Str) : l.isPrefixOf (l ++ t) = true :=
  List.isPrefixOf_iff_prefix.mpr (List.prefix_append l t)

/-- The first occurrence of a pattern after a stretch that never contains
the pattern's head character is the explicit one. -/
theorem firstMatch_append_of_ne (p : Char) (ps l post : Str)
    (h : ∀ c ∈ l, c ≠ p) :
    firstMatch (p :: ps) (l ++ (p :: ps) ++ post) = some l.length := by
  induction l with
  | nil =>
    rw [List.nil_append, List.cons_append]
    simp [firstMatch, List.isPrefixOf, isPrefixOf_append_self]
  | cons x l ih =>
    have hx : x ≠ p := h x (List.mem_cons_self x l)
    have hl : ∀ c ∈ l, c ≠ p := fun c hc => h c (List.mem_cons_of_mem x hc)
    have hpx : (p == x) = false := by simp [Ne.symm hx]
    have ih2 := ih hl
    simp only [List.append_assoc, List.cons_append] at ih2 ⊢
    simp [firstMatch, List.isPrefixOf, hpx]
    exact ih2

/-- `substring` with in-range, ordered natural indices is drop-then-take. -/
theorem jsSubstring_coe (s : Str) (a b : ℕ) (h1 : a ≤ b) (h2 : b ≤ s.length) :
    jsSubstring s (a : ℤ) (b : ℤ) = (s.drop a).take (b - a) := by
  simp only [jsSubstring]
  have e1 : min (max (a : ℤ) 0) (s.length : ℤ) = (a : ℤ) := by omega
  have e2 : min (max (b : ℤ) 0) (s.length : ℤ) = (b : ℤ) := by omega
  rw [e1, e2]
  have e3 : (min (a : ℤ) (b : ℤ)).toNat = a := by omega
  have e4 : (max (a : ℤ) (b : ℤ) - min (a : ℤ) (b : ℤ)).toNat = b - a := by omega
  rw [e3, e4]

/-- A list with no quote characters passes the quote-stripping filter
unchanged. -/
theorem filter_quotes_of_not_mem (l : Str) (h : '"' ∉ l) :
    l.filter (fun c => c != '"') = l :=
  List.filter_eq_self.mpr (fun a ha => by
    simp only [bne_iff_ne, ne_eq, decide_eq_true_eq]
    exact fun e => h (e ▸ ha))

/-! ## C1: the live manifest at process exit -/

/-- C1 counterexample.  An admissible interrupted run on which the
byte-for-byte restore fails: pre-run live manifest `7`, base manifest `0`,
no stale backup.  The sweep writes a mutated manifest (`write 1`) and
issues its `copyBasePackage` reset, but the unawaited `fs.copyFile` copy is
still in flight when `SIGINT` arrives; `cleanWorkspace` restores the backup
(`7`) over the live manifest, and only then does the pending copy land and
overwrite it with the base content.  At process exit the live manifest is
`0` — the base manifest — and not its pre-run content `7`, refuting the
claim for runs that reach exit through an interrupt. -/
theorem c1_counterexample :
    finalFS (fun p => match p with
        | FPath.live => some 7
        | FPath.base => some 0
        | FPath.backup => none)
      [MidStep.write 1] 1 false FPath.live = some 0
    ∧ (fun p => match p with
        | FPath.live => some 7
        | FPath.base => some 0
        | FPath.backup => none) FPath.live = some 7
    ∧ (some 0 : Option ℕ) ≠ some 7 :=
  ⟨rfl, rfl, by decide⟩

/-- C1 (amended).  For every run that reaches process exit with every
issued reset copy landed before the exit handler's restore
(`lateResets = 0`) — in particular every run reaching normal completion,
where pending `fs.copyFile` callbacks keep the event loop alive and the
`exit` event fires only after all copies have finished — the live
manifest's content at exit equals its pre-run content byte-for-byte,
restored from the backup taken before any mutation (assuming no stale
backup file predates the run).  This covers early interrupts, failed
preparation, and interrupts after any interleaving of sweep writes and
settled resets; an interrupt that races a still-in-flight reset copy past
the restore instead leaves the live manifest equal to the base
manifest. -/
theorem c1_restored_when_resets_settled {α : Type} (fs0 : FS α)
    (steps : List (MidStep α)) (early : Bool) (h : fs0 FPath.backup = none) :
    finalFS fs0 steps 0 early FPath.live = fs0 FPath.live := by
  unfold finalFS
  simp only [List.replicate_zero, List.foldl_nil]
  cases early with
  | true => rw [if_pos rfl, applyClean_no_backup fs0 h]
  | false =>
    rw [if_neg (by simp)]
    unfold prepareWorkspaceE
    cases hl : fs0 FPath.live with
    | none =>
      simp only [hl]
      rw [applyClean_no_backup fs0 h, hl]
    | some l =>
      simp only [hl]
      have hb : (steps.foldl applyMid (copyBasePackageFs (setFile fs0 FPath.backup l)))
          FPath.backup = some l := by
        rw [foldl_applyMid_backup, copyBasePackageFs_backup]
        simp [setFile]
      unfold applyClean cleanWorkspaceE
      rw [hb]
      simp [removeFile, setFile]

/-- Witness for C1 (amended) at a concrete run: live manifest content `7`,
base content `0`, a sweep doing a write, a settled reset and another
write, all reset copies landed before the exit handler runs. -/
theorem c1_witness :
    finalFS (fun p => match p with
        | FPath.live => some 7
        | FPath.base => some 0
        | FPath.backup => none)
      [MidStep.write 1, MidStep.reset, MidStep.write 2] 0 false FPath.live = some 7 :=
  c1_restored_when_resets_settled _ _ false rfl

/-! ## C8: error behaviour of `cleanWorkspace` -/

/-- C8 counterexample.  `cleanWorkspace` invoked when the backup file does
not exist (e.g. a second invocation) does **not** tolerate the condition
silently: `copyFileSync` throws, the error is not caught or logged inside
`cleanWorkspace`, and the `async` wrapper surfaces it to the caller as a
rejected promise — refuting the claim that cleanup never throws to its
caller and only logs copy/deletion errors. -/
theorem c8_counterexample :
    cleanWorkspaceE (fun _ => (none : Option ℕ)) =
      Except.error "ENOENT: ./backup-package.json" := rfl

/-- C8 (amended).  `cleanWorkspace` performs no error handling: when the
backup file is missing its copy step throws (surfaced as a rejected
promise by the `async` wrapper, not caught and not logged); the failed
invocation leaves the filesystem unchanged, so in the exit handler the
failure merely skips the rest of the handler instead of corrupting
state. -/
theorem c8_clean_throws_without_logging {α : Type} (fs : FS α)
    (h : fs FPath.backup = none) :
    cleanWorkspaceE fs = Except.error "ENOENT: ./backup-package.json"
    ∧ applyClean fs = fs := by
  refine ⟨?_, applyClean_no_backup fs h⟩
  unfold cleanWorkspaceE
  rw [h]

/-- Witness for C8 on the empty filesystem. -/
theorem c8_witness :
    cleanWorkspaceE (fun _ => (none : Option ℕ)) =
      Except.error "ENOENT: ./backup-package.json"
    ∧ applyClean (fun _ => (none : Option ℕ)) = (fun _ => (none : Option ℕ)) :=
  c8_clean_throws_without_logging _ rfl

/-! ## C9: rejection of `--runs 1` -/

/-- C9 counterexample.  With `--runs 1` the script prints the message and
returns early with no filesystem effect, but the process then exits
normally: the exit code is `0`, refuting the claimed non-zero process
exit. -/
theorem c9_counterexample :
    (mainScript { baseTime := none, runs := some 1, extensions := none,
                  yarn := false, url := none }
      (fun _ => (none : Option ℕ))).exitCode = 0
    ∧ (mainScript { baseTime := none, runs := some 1, extensions := none,
                    yarn := false, url := none }
        (fun _ => (none : Option ℕ))).errors = ["--runs must be at least 2"] :=
  ⟨rfl, rfl⟩

/-- C9 (amended).  If the runs option is supplied with value 1, the run is
rejected with the message `--runs must be at least 2` and the main
function returns before any side effect — no manifest file is created,
copied or modified — but the process exits with code 0, not a non-zero
status. -/
theorem c9_runs_one_rejected_exit_zero {α : Type} (args : Args) (fs0 : FS α)
    (h : args.runs = some 1) :
    mainScript args fs0 =
      { errors := ["--runs must be at least 2"], fs := fs0, exitCode := 0,
        proceeded := false, runsUsed := 1 } := by
  have hr : rejectsRuns args = true := by simp [rejectsRuns, h]
  simp [mainScript, hr, runsAfterOptions, h]

/-- Witness for C9 at a concrete invocation. -/
theorem c9_witness :
    mainScript { baseTime := none, runs := some 1, extensions := none,
                 yarn := false, url := none }
      (fun _ => (some 0 : Option ℕ)) =
      { errors := ["--runs must be at least 2"], fs := fun _ => (some 0 : Option ℕ),
        exitCode := 0, proceeded := false, runsUsed := 1 } :=
  c9_runs_one_rejected_exit_zero _ _ rfl

/-! ## C10: absent or zero `--runs` keeps the default of 10 -/

/-- C10.  When `--runs` is absent or supplied as 0 the value is falsy, the
minimum-2 check is not triggered, and the sweep proceeds with the default
run count of 10 (given a live manifest for `prepareWorkspace` to back
up). -/
theorem c10_default_runs {α : Type} (args : Args) (fs0 : FS α) (l : α)
    (h1 : args.runs = none ∨ args.runs = some 0) (h2 : fs0 FPath.live = some l) :
    (mainScript args fs0).proceeded = true
    ∧ (mainScript args fs0).runsUsed = 10
    ∧ (mainScript args fs0).errors = [] := by
  have hr : rejectsRuns args = false := by
    rcases h1 with h | h <;> simp [rejectsRuns, h]
  have hp : prepareWorkspaceE fs0 =
      Except.ok (copyBasePackageFs (setFile fs0 FPath.backup l)) := by
    unfold prepareWorkspaceE
    rw [h2]
  have hq : runsAfterOptions args = 10 := by
    rcases h1 with h | h <;> simp [runsAfterOptions, h]
  simp [mainScript, hr, hp, hq]

/-- Witness for C10 with `--runs` absent. -/
theorem c10_witness :
    (mainScript { baseTime := none, runs := none, extensions := none,
                  yarn := false, url := none }
      (fun _ => (some 7 : Option ℕ))).proceeded = true
    ∧ (mainScript { baseTime := none, runs := none, extensions := none,
                    yarn := false, url := none }
        (fun _ => (some 7 : Option ℕ))).runsUsed = 10
    ∧ (mainScript { baseTime := none, runs := none, extensions := none,
                    yarn := false, url := none }
        (fun _ => (some 7 : Option ℕ))).errors = [] :=
  c10_default_runs _ _ 7 (Or.inl rfl) rfl

/-! ## C2: qualifier parsing round-trip -/

/-- C2 counterexample.  For the enumerator-produced qualifier
`"a": "1.0.0"`, parsing recovers the version as `" 1.0.0"` — with the
separator's space glued to the front — not the original substring
`"1.0.0"`: splitting happens at the last colon but the character right
after the colon is the space of `': '`, which `substring(i + 1)`
keeps. -/
theorem c2_counterexample :
    (parseQualifier (enumQualifier "a".toList "1.0.0".toList)).2 = " 1.0.0".toList
    ∧ (parseQualifier (enumQualifier "a".toList "1.0.0".toList)).2 ≠ "1.0.0".toList := by
  decide

/-- C2 (amended).  For every qualifier produced by the package enumerator
from a quote-free name and a quote-free, colon-free version, parsing by
stripping quote characters and splitting on the last colon recovers the
name exactly — including names that themselves contain colons — and
recovers the version with one leading space prepended (the space of the
`': '` separator), not the original version substring. -/
theorem c2_parse_recovers_name_and_spaced_version (name version : Str)
    (h1 : '"' ∉ name) (h2 : '"' ∉ version) (h3 : ':' ∉ version) :
    parseQualifier (enumQualifier name version) = (name, ' ' :: version) := by
  have d2 : ((':' : Char) != '"') = true := rfl
  have d3 : ((' ' : Char) != '"') = true := rfl
  have hq : (enumQualifier name version).filter (fun c => c != '"')
      = name ++ ':' :: ' ' :: version := by
    simp [enumQualifier, List.filter_append, List.filter_cons, d2, d3,
      filter_quotes_of_not_mem name h1, filter_quotes_of_not_mem version h2]
  have hm : lastMatch [':'] (name ++ ':' :: ' ' :: version) = some name.length := by
    apply lastMatch_single_append
    intro hmem
    rcases List.mem_cons.mp hmem with e | e
    · exact absurd e (by decide)
    · exact h3 e
  have hlen : (name ++ ':' :: ' ' :: version).length = name.length + (2 + version.length) := by
    simp [List.length_append]
    omega
  simp only [parseQualifier, hq, jsLastIndexOf, hm]
  have e0 : ((0 : ℕ) : ℤ) = (0 : ℤ) := rfl
  have c1 : jsSubstring (name ++ ':' :: ' ' :: version) ((0 : ℕ) : ℤ)
      ((name.length : ℕ) : ℤ) = name := by
    rw [jsSubstring_coe _ 0 name.length (by omega) (by omega)]
    simp [List.take_left]
  have c2 : jsSubstring (name ++ ':' :: ' ' :: version)
      (((name.length + 1 : ℕ) : ℤ)) (((name ++ ':' :: ' ' :: version).length : ℕ) : ℤ)
      = ' ' :: version := by
    rw [jsSubstring_coe _ (name.length + 1) _ (by omega) (by omega)]
    have hassoc : name ++ ':' :: ' ' :: version = (name ++ [':']) ++ (' ' :: version) := by
      simp
    rw [hassoc]
    have hd : ((name ++ [':']) ++ (' ' :: version)).drop (name.length + 1)
        = ' ' :: version := by
      have : (name ++ [':']).length = name.length + 1 := by simp
      rw [← this, List.drop_left]
    rw [hd]
    have ht : ((name ++ [':']) ++ (' ' :: version)).length - (name.length + 1)
        = (' ' :: version).length := by
      simp
      omega
    rw [ht, List.take_length]
  have ecast : ((name.length + 1 : ℕ) : ℤ) = ((name.length : ℕ) : ℤ) + 1 := by
    push_cast
    ring
  rw [ecast] at c2
  simp only [Prod.mk.injEq]
  refine ⟨?_, c2⟩
  simpa using c1

/-- Witness for C2 (amended) on a name that itself contains a colon. -/
theorem c2_witness :
    parseQualifier (enumQualifier "a:b".toList "1.0.0".toList) =
      ("a:b".toList, ' ' :: "1.0.0".toList) :=
  c2_parse_recovers_name_and_spaced_version _ _ (by decide) (by decide) (by decide)

/-! ## C3: the parser returns the value after the last marker -/

/-- Characters of a numeric token are never the letter `s`. -/
theorem numchar_ne_s (c : Char)
    (h : isDigitChar c = true ∨ c = '.' ∨ c = '+' ∨ c = '-') : c ≠ 's' := by
  rcases h with h | h | h | h
  · intro e
    subst e
    exact absurd h (by decide)
  all_goals (subst h; decide)

/-- C3.  For every captured output blob in which the last occurrence of the
marker is followed by a space, a numeric text run and the literal
`" seconds"`, `getMeasurement` returns exactly that text run — the text
immediately after the **last** marker occurrence, up to but not including
`"seconds"`, with the surrounding spaces trimmed — and parsing it as a
decimal number gives the run's value; occurrences of the marker earlier in
the blob (e.g. one per warm-up run) are ignored. -/
theorem c3_last_marker_value (pre numtext post marker : Str)
    (hlast : lastMatch marker
        (pre ++ (marker ++ (' ' :: (numtext ++ (' ' :: ("seconds".toList ++ post))))))
      = some pre.length)
    (hchars : ∀ c ∈ numtext, isDigitChar c = true ∨ c = '.' ∨ c = '+' ∨ c = '-') :
    getMeasurement
        (pre ++ (marker ++ (' ' :: (numtext ++ (' ' :: ("seconds".toList ++ post))))))
        marker = numtext
    ∧ jsParseFloat (getMeasurement
        (pre ++ (marker ++ (' ' :: (numtext ++ (' ' :: ("seconds".toList ++ post))))))
        marker) = jsParseFloat numtext := by
  have main : getMeasurement
      (pre ++ (marker ++ (' ' :: (numtext ++ (' ' :: ("seconds".toList ++ post))))))
      marker = numtext := by
    have hdrop : (pre ++ (marker ++ (' ' :: (numtext ++ (' ' :: ("seconds".toList ++ post)))))).drop
        (pre.length + marker.length + 1) = numtext ++ (' ' :: ("seconds".toList ++ post)) := by
      have hsh : pre ++ (marker ++ (' ' :: (numtext ++ (' ' :: ("seconds".toList ++ post)))))
          = (pre ++ marker ++ [' ']) ++ (numtext ++ (' ' :: ("seconds".toList ++ post))) := by
        simp
      rw [hsh]
      have hl2 : (pre ++ marker ++ [' ']).length = pre.length + marker.length + 1 := by
        simp
        omega
      rw [← hl2, List.drop_left]
    have hchar2 : ∀ c ∈ numtext ++ [' '], c ≠ 's' := by
      intro c hc
      rcases List.mem_append.mp hc with hc | hc
      · exact numchar_ne_s c (hchars c hc)
      · simp only [List.mem_singleton] at hc
        subst hc
        decide
    have hfm : firstMatch ("seconds".toList) (numtext ++ (' ' :: ("seconds".toList ++ post)))
        = some (numtext.length + 1) := by
      have hre : numtext ++ (' ' :: ("seconds".toList ++ post))
          = (numtext ++ [' ']) ++ ('s' :: "econds".toList) ++ post := by
        simp
      rw [hre]
      have := firstMatch_append_of_ne 's' ("econds".toList) (numtext ++ [' ']) post hchar2
      simpa using this
    have hidx : jsIndexOfFrom
        (pre ++ (marker ++ (' ' :: (numtext ++ (' ' :: ("seconds".toList ++ post))))))
        ("seconds".toList) ((pre.length : ℤ) + marker.length + 1)
        = (pre.length : ℤ) + marker.length + 1 + (numtext.length + 1) := by
      simp only [jsIndexOfFrom]
      have hf : ((pre.length : ℤ) + marker.length + 1).toNat
          = pre.length + marker.length + 1 := by omega
      rw [hf, hdrop, hfm]
      push_cast
      ring
    simp only [getMeasurement, jsLastIndexOf, hlast, hidx]
    have ha : ((pre.length : ℤ) + marker.length + 1)
        = ((pre.length + marker.length + 1 : ℕ) : ℤ) := by
      push_cast
      ring
    have hb : ((pre.length : ℤ) + marker.length + 1 + (numtext.length + 1) - 1)
        = ((pre.length + marker.length + 1 + numtext.length : ℕ) : ℤ) := by
      push_cast
      ring
    rw [hb, ha]
    have hblen : (pre ++ (marker ++ (' ' :: (numtext ++ (' ' :: ("seconds".toList ++ post)))))).length
        = pre.length + marker.length + 1 + numtext.length + 1 + 7 + post.length := by
      simp
      omega
    rw [jsSubstring_coe _ _ _ (by omega) (by omega)]
    rw [hdrop, Nat.add_sub_cancel_left]
    exact List.take_left numtext _
  exact ⟨main, by rw [main]⟩

/-- Witness for C3 on a blob containing the mean marker twice: the value
after the second (last) occurrence is returned and parsed. -/
theorem c3_witness :
    getMeasurement
        (("[MEAN] Largest Contentful Paint (LCP): 9.999 seconds\n".toList)
          ++ (meanMarker ++ (' ' :: ("2.500".toList ++ (' ' :: ("seconds".toList ++ "\n".toList))))))
        meanMarker = "2.500".toList
    ∧ jsParseFloat (getMeasurement
        (("[MEAN] Largest Contentful Paint (LCP): 9.999 seconds\n".toList)
          ++ (meanMarker ++ (' ' :: ("2.500".toList ++ (' ' :: ("seconds".toList ++ "\n".toList))))))
        meanMarker) = jsParseFloat "2.500".toList :=
  c3_last_marker_value _ _ _ _ (by decide) (by decide)

/-! ## C4: behaviour on parse failure -/

/-- C4 counterexample.  A blob that contains **neither** marker does not
necessarily produce `NaN`: with the marker absent, `lastIndexOf` returns
`-1` and extraction starts at offset `marker.length`, which can land on
numeric text.  On the blob of 39 dots followed by `1 seconds`, the mean
extraction yields `.1` and the stdev extraction yields `1` — both parse,
and the trial is reported as a fully *successful* row, refuting
"either marker absent → the parsed measurement value is NaN (and an error
row is printed)". -/
theorem c4_counterexample :
    lastMatch meanMarker (List.replicate 39 '.' ++ "1 seconds".toList) = none
    ∧ lastMatch stdevMarker (List.replicate 39 '.' ++ "1 seconds".toList) = none
    ∧ trialOfBlob "x" (List.replicate 39 '.' ++ "1 seconds".toList)
        = { label := "x", mean := some ⟨1, 10⟩, stdev := some ⟨1, 1⟩ }
    ∧ runTrialsOnBlobs [("x", List.replicate 39 '.' ++ "1 seconds".toList)] none
        = [{ label := "x", mean := "0.100", stdev := "1.000", cv := "1000.000",
             delta := "-" }] := by
  decide

/-- C4 (amended).  For every captured output blob whose extracted mean or
stdev text is not numeric (parses to NaN), the trial is reported as a row
with the label, the explicit error placeholder and dash placeholders for
the remaining three fields, no exception is raised, and the sweep
continues with the next extension and an unchanged baseline.  (An absent
marker usually, but not necessarily, produces such a NaN.) -/
theorem c4_parse_failure_localized (lab : String) (blob : Str)
    (rest : List (String × Str)) (bt : Option Q)
    (h : jsParseFloat (getMeasurement blob meanMarker) = none
       ∨ jsParseFloat (getMeasurement blob stdevMarker) = none) :
    runTrialsOnBlobs ((lab, blob) :: rest) bt
      = errorRow lab :: runTrialsOnBlobs rest bt := by
  unfold runTrialsOnBlobs
  simp only [List.map_cons]
  rcases h with h | h
  · cases hs : jsParseFloat (getMeasurement blob stdevMarker) with
    | none => simp [runTrials, reportRow, trialOfBlob, h, hs]
    | some s => simp [runTrials, reportRow, trialOfBlob, h, hs]
  · cases hm : jsParseFloat (getMeasurement blob meanMarker) with
    | none => simp [runTrials, reportRow, trialOfBlob, h, hm]
    | some m => simp [runTrials, reportRow, trialOfBlob, h, hm]

/-- Witness for C4 (amended): a marker-less, non-numeric blob produces the
error row while the sweep continues to the remaining extension. -/
theorem c4_witness :
    runTrialsOnBlobs
        [("bad", "no markers here".toList),
         ("ok", "[MEAN] Largest Contentful Paint (LCP): 2.5 seconds".toList)] none
      = errorRow "bad"
        :: runTrialsOnBlobs
            [("ok", "[MEAN] Largest Contentful Paint (LCP): 2.5 seconds".toList)] none :=
  c4_parse_failure_localized _ _ _ _ (Or.inl (by decide))

/-! ## C5: the first successful mean becomes the baseline -/

/-- A failed measurement prints the error row and leaves `baseTime`
unchanged. -/
theorem reportRow_fail (lab : String) (mean stdev : Option Q) (bt : Option Q)
    (h : mean = none ∨ stdev = none) :
    reportRow lab mean stdev bt = (errorRow lab, bt) := by
  rcases h with h | h
  · rcases stdev with _ | s <;> simp [reportRow, h]
  · rcases mean with _ | m <;> simp [reportRow, h]

/-- Once `baseTime` is set it never changes. -/
theorem reportRow_keeps_base (lab : String) (mean stdev : Option Q) (b : Q) :
    (reportRow lab mean stdev (some b)).2 = some b := by
  rcases mean with _ | m <;> rcases stdev with _ | s <;> simp [reportRow]

/-- With an established baseline the trial loop is a pointwise map. -/
theorem runTrials_some (ts : List Trial) (b : Q) :
    runTrials ts (some b)
      = ts.map (fun t => (reportRow t.label t.mean t.stdev (some b)).1) := by
  induction ts with
  | nil => rfl
  | cons t ts ih =>
    rw [List.map_cons, ← ih]
    show (reportRow t.label t.mean t.stdev (some b)).1
        :: runTrials ts (reportRow t.label t.mean t.stdev (some b)).2 = _
    rw [reportRow_keeps_base]

/-- C5.  If no base time is supplied at startup (`baseTime` starts as
`none`), then the first trial whose mean and stdev both parse becomes the
baseline: the failed trials before it print error rows with the baseline
still unset, its own row prints a dash in the delta column, every
subsequent row is computed against its mean `m`, and every subsequent
successful row's delta is exactly `toFixed3 (mean - m)`. -/
theorem c5_first_success_becomes_baseline (pre post : List Trial) (lab : String)
    (m s : Q) (hpre : ∀ t ∈ pre, t.mean = none ∨ t.stdev = none) :
    runTrials (pre ++ { label := lab, mean := some m, stdev := some s } :: post) none
      = pre.map (fun t => errorRow t.label)
        ++ ({ label := lab, mean := toFixed3 m, stdev := toFixed3 s,
              cv := toFixed3 (Q.mul (Q.div s m) (Q.ofInt 100)), delta := "-" } : Row)
          :: post.map (fun t => (reportRow t.label t.mean t.stdev (some m)).1)
    ∧ ∀ lab2 m2 s2,
        (reportRow lab2 (some m2) (some s2) (some m)).1.delta = toFixed3 (Q.sub m2 m) := by
  constructor
  · induction pre with
    | nil =>
      rw [List.nil_append, List.map_nil, List.nil_append]
      show (reportRow lab (some m) (some s) none).1
          :: runTrials post (reportRow lab (some m) (some s) none).2 = _
      simp [reportRow, runTrials_some post m]
    | cons t ts ih =>
      have hf := reportRow_fail t.label t.mean t.stdev none
        (hpre t (List.mem_cons_self t ts))
      rw [List.cons_append, List.map_cons, List.cons_append]
      show (reportRow t.label t.mean t.stdev none).1
          :: runTrials (ts ++ _ :: post) (reportRow t.label t.mean t.stdev none).2 = _
      rw [hf]
      exact congrArg _ (ih fun u hu => hpre u (List.mem_cons_of_mem t hu))
  · intro lab2 m2 s2
    simp [reportRow]

/-- Witness for C5 on a concrete sweep: a failed baseline trial, a first
success (mean 5/2), then a further success and a further failure. -/
theorem c5_witness :
    runTrials
        (([{ label := "Base Theia", mean := none, stdev := some ⟨1, 1⟩ }] : List Trial)
          ++ ({ label := "a", mean := some ⟨5, 2⟩, stdev := some ⟨1, 10⟩ } : Trial)
            :: ([{ label := "b", mean := some ⟨3, 1⟩, stdev := some ⟨1, 2⟩ },
                 { label := "c", mean := none, stdev := none }] : List Trial)) none
      = ([{ label := "Base Theia", mean := none, stdev := some ⟨1, 1⟩ }] : List Trial).map
          (fun t => errorRow t.label)
        ++ ({ label := "a", mean := toFixed3 ⟨5, 2⟩, stdev := toFixed3 ⟨1, 10⟩,
              cv := toFixed3 (Q.mul (Q.div ⟨1, 10⟩ ⟨5, 2⟩) (Q.ofInt 100)),
              delta := "-" } : Row)
          :: ([{ label := "b", mean := some ⟨3, 1⟩, stdev := some ⟨1, 2⟩ },
               { label := "c", mean := none, stdev := none }] : List Trial).map
              (fun t => (reportRow t.label t.mean t.stdev (some ⟨5, 2⟩)).1)
    ∧ ∀ lab2 m2 s2,
        (reportRow lab2 (some m2) (some s2) (some ⟨5, 2⟩)).1.delta
          = toFixed3 (Q.sub m2 ⟨5, 2⟩) :=
  c5_first_success_becomes_baseline _ _ _ _ _ (by decide)

/-! ## C6: the postcondition of the manifest mutator -/

/-- C6.  Evaluation of the mutation code at the failing input: base
manifest with empty dependencies, qualifiers `"a": "1.0.0"` then
`"b": "2.0.0"`.  After the mutator runs for the *first* qualifier exactly
one dependency entry differs from base, but after it runs for the *second*
qualifier **two** entries differ: `require` returns the cached manifest
object that was already mutated during the first trial, not the file that
`copyBasePackage` reset to base in between, so mutations accumulate.  The
claimed postcondition (exactly one entry differs after every mutation) is
violated by the code even though the reset-to-base machinery shows it is
exactly what the script intends. -/
theorem c6_require_cache_accumulates :
    (statesAfterMutation [] { live := [], cache := none }
        ["\"a\": \"1.0.0\"".toList, "\"b\": \"2.0.0\"".toList]).map
      (fun st => diffKeys st.live [])
      = [["a".toList], ["a".toList, "b".toList]]
    ∧ (statesAfterMutation [] { live := [], cache := none }
        ["\"a\": \"1.0.0\"".toList, "\"b\": \"2.0.0\"".toList]).map
      (fun st => st.live)
      = [[("a".toList, " 1.0.0".toList)],
         [("a".toList, " 1.0.0".toList), ("b".toList, " 2.0.0".toList)]] := by
  decide

/-! ## C7: ordering between consecutive trials -/

/-- `mainSeq` is monotone: a longer sweep extends a shorter one. -/
theorem mainSeq_prefix (m n : ℕ) (h : m ≤ n) : ∃ r, mainSeq n = mainSeq m ++ r := by
  induction n with
  | zero =>
    have hm : m = 0 := Nat.le_zero.mp h
    subst hm
    exact ⟨[], by simp [mainSeq]⟩
  | succ k ih =>
    rcases Nat.eq_or_lt_of_le h with he | hlt
    · subst he
      exact ⟨[], by simp⟩
    · obtain ⟨r, hr⟩ := ih (Nat.lt_succ_iff.mp hlt)
      refine ⟨r ++ [Ev.mutate k, Ev.build k, Ev.measure k, Ev.resetIssue k], ?_⟩
      show mainSeq k ++ _ = _
      rw [hr, List.append_assoc]

/-- Embedding a sublist of a middle segment into the surrounding list. -/
theorem sublist_embed {s mid : List Ev} (l r : List Ev) (h : List.Sublist s mid) :
    List.Sublist s (l ++ (mid ++ r)) :=
  (h.trans (List.sublist_append_left mid r)).trans
    (List.sublist_append_right l (mid ++ r))

/-- C7 counterexample.  An admissible trace of a two-extension sweep in
which both reset copies complete only at the very end (`fs.copyFile` is
issued but never awaited, and Node guarantees no ordering for it relative
to later operations): the trace is valid, yet the mutation for extension 1
precedes the completion of extension 0's reset — refuting the claim that
the mutation for extension N+1 is never issued before the live manifest
has been reset. -/
theorem c7_counterexample :
    ValidTrace 2
      [Ev.mutate 0, Ev.build 0, Ev.measure 0, Ev.resetIssue 0,
       Ev.mutate 1, Ev.build 1, Ev.measure 1, Ev.resetIssue 1,
       Ev.resetComplete 0, Ev.resetComplete 1]
    ∧ ¬ mutationAfterResetCompletes 2
      [Ev.mutate 0, Ev.build 0, Ev.measure 0, Ev.resetIssue 0,
       Ev.mutate 1, Ev.build 1, Ev.measure 1, Ev.resetIssue 1,
       Ev.resetComplete 0, Ev.resetComplete 1] := by
  constructor
  · exact ⟨by decide, by decide, by decide⟩
  · intro h
    exact absurd ((h 0 (by omega)).2.2) (by decide)

/-- C7 (amended).  In every admissible trace, the manifest mutation for
extension `i + 1` is issued only after the build and the measurement for
extension `i` have completed and after the reset of the live manifest has
been *issued*; completion of the reset is asynchronous and is not awaited,
so it carries no such guarantee. -/
theorem c7_mutation_after_reset_issue (n : ℕ) (t : List Ev) (h : ValidTrace n t)
    (i : ℕ) (hi : i + 1 < n) :
    List.Sublist [Ev.build i, Ev.mutate (i + 1)] t
    ∧ List.Sublist [Ev.measure i, Ev.mutate (i + 1)] t
    ∧ List.Sublist [Ev.resetIssue i, Ev.mutate (i + 1)] t := by
  have hms : List.Sublist (mainSeq n) t := by
    rw [← h.1]
    exact List.filter_sublist t
  obtain ⟨r, hr⟩ := mainSeq_prefix (i + 2) n (by omega)
  have h8 : mainSeq n = mainSeq i
      ++ ([Ev.mutate i, Ev.build i, Ev.measure i, Ev.resetIssue i,
           Ev.mutate (i + 1), Ev.build (i + 1), Ev.measure (i + 1),
           Ev.resetIssue (i + 1)] ++ r) := by
    rw [hr]
    show (mainSeq (i + 1) ++ _) ++ r = _
    show ((mainSeq i ++ _) ++ _) ++ r = _
    simp [List.append_assoc]
  have hembed : ∀ s : List Ev,
      List.Sublist s
        [Ev.mutate i, Ev.build i, Ev.measure i, Ev.resetIssue i,
         Ev.mutate (i + 1), Ev.build (i + 1), Ev.measure (i + 1),
         Ev.resetIssue (i + 1)] →
      List.Sublist s t := by
    intro s hs
    refine List.Sublist.trans ?_ hms
    rw [h8]
    exact sublist_embed _ _ hs
  refine ⟨hembed _ ?_, hembed _ ?_, hembed _ ?_⟩
  · exact List.Sublist.cons _ (List.Sublist.cons₂ _ (List.Sublist.cons _
      (List.Sublist.cons _ (List.Sublist.cons₂ _ (List.nil_sublist _)))))
  · exact List.Sublist.cons _ (List.Sublist.cons _ (List.Sublist.cons₂ _
      (List.Sublist.cons _ (List.Sublist.cons₂ _ (List.nil_sublist _)))))
  · exact List.Sublist.cons _ (List.Sublist.cons _ (List.Sublist.cons _
      (List.Sublist.cons₂ _ (List.Sublist.cons₂ _ (List.nil_sublist _)))))

/-- Witness for C7 (amended) on a concrete valid trace of a two-extension
sweep in which each reset completes right after it is issued. -/
theorem c7_witness :
    List.Sublist [Ev.build 0, Ev.mutate 1]
      [Ev.mutate 0, Ev.build 0, Ev.measure 0, Ev.resetIssue 0, Ev.resetComplete 0,
       Ev.mutate 1, Ev.build 1, Ev.measure 1, Ev.resetIssue 1, Ev.resetComplete 1]
    ∧ List.Sublist [Ev.measure 0, Ev.mutate 1]
      [Ev.mutate 0, Ev.build 0, Ev.measure 0, Ev.resetIssue 0, Ev.resetComplete 0,
       Ev.mutate 1, Ev.build 1, Ev.measure 1, Ev.resetIssue 1, Ev.resetComplete 1]
    ∧ List.Sublist [Ev.resetIssue 0, Ev.mutate 1]
      [Ev.mutate 0, Ev.build 0, Ev.measure 0, Ev.resetIssue 0, Ev.resetComplete 0,
       Ev.mutate 1, Ev.build 1, Ev.measure 1, Ev.resetIssue 1, Ev.resetComplete 1] :=
  c7_mutation_after_reset_issue 2 _ ⟨by decide, by decide, by decide⟩ 0 (by omega)

end ExtensionImpact
